import Mathlib

/-!
Verification development for the smart-connections-mcp server core.

The TypeScript sources are shallowly embedded as Lean definitions:

* `src/security.ts` — `Config`, `ValidationResult`, `validateNotePath`,
  `validateEmbedding`, `validateLimit`.  Filesystem primitives
  (`fs.existsSync`, `fs.realpathSync`, `fs.statSync`, `fs.readFileSync`)
  are modelled as an oracle structure `FS`; a `none`/`.error` answer of a
  fallible primitive models the Node call throwing.  A result of `none`
  from an embedded handler/validator models an exception escaping that
  function uncaught.
* `src/data.ts` — the `.ajson` loader (`parseAjsonFile`, `loadEmbeddings`)
  together with a JSON parser modelling the strict `JSON.parse` grammar
  (numbers are modelled exactly as rationals; IEEE-754 rounding of
  numeric literals is idealized away, which no theorem below depends on).
* `src/search.ts` — `cosineSimilarity`, `findSimilar`.  JavaScript numbers
  are idealized as real numbers; `Array.prototype.sort` with the
  comparator `(a, b) => b.score - a.score` is modelled by a stable
  descending insertion sort (ES2019 requires sort stability, which makes
  the sorted output unique).
* `src/tools.ts` — `handleGetNote`, `handleSearchByEmbedding` (post
  zod-parse, with the zod constraints of `SearchByEmbeddingSchema`
  modelled explicitly).

Path strings follow the POSIX behaviour of Node's `path` module
(`path.sep = "/"`, `path.isAbsolute s = s.startsWith "/"`).  JavaScript
string primitives (`trim`, `startsWith`, `includes`, `endsWith`,
`normalize`, `join`, `basename`, `slice`) are modelled on the underlying
character lists; `String.prototype.length` (UTF-16 code units) is
`jsLength` below, distinct from the UTF-8 byte length `utf8ByteLength`.
-/

/-! ## JavaScript string primitives -/

/-- Whitespace for `String.prototype.trim` (ASCII whitespace plus NBSP and
BOM; the remaining exotic Unicode space code points are omitted — no
theorem below depends on them). -/
def jsIsWs (c : Char) : Bool :=
  c = ' ' || c = '\t' || c = '\n' || c = '\r' || c = '\x0b' || c = '\x0c' ||
  c.toNat = 0xA0 || c.toNat = 0xFEFF

def trimLeftL (l : List Char) : List Char := l.dropWhile jsIsWs

def trimRightL (l : List Char) : List Char := (l.reverse.dropWhile jsIsWs).reverse

/-- `String.prototype.trim`. -/
def jsTrim (s : String) : String := ⟨trimRightL (trimLeftL s.data)⟩

/-- `String.prototype.startsWith`. -/
def jsStartsWith (s pre : String) : Bool := List.isPrefixOf pre.data s.data

/-- `String.prototype.endsWith`. -/
def jsEndsWith (s suf : String) : Bool := List.isPrefixOf suf.data.reverse s.data.reverse

/-- `String.prototype.includes`. -/
def jsIncludes (s sub : String) : Bool := decide (List.IsInfix sub.data s.data)

/-- `String.prototype.toLowerCase`; `Char.toLower` is ASCII-only, which is
all the repository relies on (the `.md` extension check). -/
def jsToLower (s : String) : String := ⟨s.data.map Char.toLower⟩

/-- `str.slice(0, -1)`: drop the last character. -/
def dropLastStr (s : String) : String := ⟨s.data.dropLast⟩

/-- `str.replace(/^pre/, '')`: strip `pre` when it is a leading prefix. -/
def dropLeadingStr (s pre : String) : String :=
  if jsStartsWith s pre then ⟨s.data.drop pre.data.length⟩ else s

def splitCharAux (sep : Char) : List Char → List Char → List String
  | [], cur => [⟨cur.reverse⟩]
  | c :: cs, cur =>
    if c = sep then ⟨cur.reverse⟩ :: splitCharAux sep cs []
    else splitCharAux sep cs (c :: cur)

/-- `String.prototype.split` with a single-character separator. -/
def jsSplitOnChar (sep : Char) (s : String) : List String := splitCharAux sep s.data []

/-- UTF-16 code units contributed by one code point
(`String.prototype.length` counts these). -/
def utf16Units (c : Char) : Nat := if 0x10000 ≤ c.toNat then 2 else 1

/-- `String.prototype.length`: UTF-16 code units. -/
def jsLength (s : String) : Nat := (s.data.map utf16Units).sum

/-- UTF-8 byte length of a string (for contrast with `jsLength`). -/
def utf8ByteLength (s : String) : Nat := (s.data.map Char.utf8Size).sum

/-- Take a prefix worth at most `n` UTF-16 code units (models
`str.slice(0, n)` for `n ≥ 0`; a surrogate pair is never split because the
model works on whole code points). -/
def takeUnits : List Char → Nat → List Char
  | [], _ => []
  | c :: cs, n => if utf16Units c ≤ n then c :: takeUnits cs (n - utf16Units c) else []

def jsSliceUnits (s : String) (n : Nat) : String := ⟨takeUnits s.data n⟩

/-! ## POSIX path model (Node `path` module) -/

/-- Segment stack machine of Node's `normalizeString`: `.` segments and
empty segments are dropped by the caller; `..` pops a previous segment,
stays (relative paths) or vanishes (absolute paths) when there is nothing
to pop. -/
def normSegs (isAbs : Bool) : List String → List String → List String
  | acc, [] => acc.reverse
  | acc, seg :: rest =>
    if seg = ".." then
      match acc with
      | [] => if isAbs then normSegs isAbs [] rest else normSegs isAbs [".."] rest
      | top :: accT =>
        if ¬ isAbs ∧ top = ".." then normSegs isAbs (".." :: acc) rest
        else normSegs isAbs accT rest
    else normSegs isAbs (seg :: acc) rest

/-- `path.posix.normalize`. -/
def posixNormalize (s : String) : String :=
  if s = "" then "." else
  let isAbs := jsStartsWith s "/"
  let hasTrail := jsEndsWith s "/"
  let segs := (jsSplitOnChar '/' s).filter (fun t => t ≠ "" && t ≠ ".")
  let core := String.intercalate "/" (normSegs isAbs [] segs)
  if isAbs then
    if core = "" then "/" else "/" ++ core ++ (if hasTrail then "/" else "")
  else
    if core = "" then (if hasTrail then "./" else ".")
    else core ++ (if hasTrail then "/" else "")

/-- `path.posix.join` with two arguments. -/
def jsJoin (a b : String) : String :=
  let joined := if a = "" then b else if b = "" then a else a ++ "/" ++ b
  if joined = "" then "." else posixNormalize joined

/-- `path.posix.basename(p, ext)`. -/
def jsBasename (p ext : String) : String :=
  let base : String := ⟨((p.data.reverse.dropWhile (· = '/')).takeWhile (· ≠ '/')).reverse⟩
  if jsEndsWith base ext ∧ base ≠ ext then ⟨base.data.take (base.data.length - ext.data.length)⟩
  else base

/-- `extractTitle` from `src/data.ts`: filename without the `.md`
extension, underscores rendered as spaces. -/
def extractTitle (notePath : String) : String :=
  ⟨(jsBasename notePath ".md").data.map (fun ch => if ch = '_' then ' ' else ch)⟩

/-! ## Security module (`src/security.ts`) -/

structure Limits where
  maxQueryLength : Nat
  maxResults : Nat
  maxContentLength : Nat
deriving DecidableEq

/-- `Config` from `src/security.ts`; `resolvedVaultPath` is the canonical
(symlink-resolved) vault root used for every containment check. -/
structure Config where
  vaultPath : String
  resolvedVaultPath : String
  limits : Limits
deriving DecidableEq

structure ValidationResult where
  valid : Bool
  error : Option String
  resolvedPath : Option String
deriving DecidableEq

structure Stats where
  isFile : Bool
deriving DecidableEq

/-- Filesystem oracle.  Node semantics: `existsSync` never throws (it
answers `false` on error); `realpathSync` and `statSync` throw on error
(`none` here); `readFileSync` throws with some error detail (`.error`
here).  Each call is an independent oracle answer, as Node gives no
consistency guarantee between consecutive calls. -/
structure FS where
  existsSync : String → Bool
  realpathSync : String → Option String
  statSync : String → Option Stats
  readFileSync : String → Except String String

/-- The full path `validateNotePath` resolves: the canonical root joined
with the lexically normalized trimmed candidate
(`path.join(config.resolvedVaultPath, normalized)` in the source). -/
def fullNotePath (config : Config) (relativePath : String) : String :=
  jsJoin config.resolvedVaultPath (posixNormalize (jsTrim relativePath))

/-- `validateNotePath` from `src/security.ts` (lines 94–171).  The result
`none` models an exception escaping the function: the only possible source
is `fs.statSync` on the final resolved path, which the source calls
*outside* its try/catch block. -/
def validateNotePath (fs : FS) (config : Config) (relativePath : String) :
    Option ValidationResult :=
  -- the source's locals: trimmed = jsTrim relativePath,
  -- normalized = posixNormalize trimmed,
  -- fullPath = jsJoin config.resolvedVaultPath normalized = fullNotePath config relativePath
  if relativePath = "" then some ⟨false, some "Path is required", none⟩
  else if jsTrim relativePath = "" then some ⟨false, some "Path cannot be empty", none⟩
  else if jsStartsWith (jsTrim relativePath) "/" then
    some ⟨false, some "Absolute paths not allowed", none⟩
  else if jsStartsWith (posixNormalize (jsTrim relativePath)) ".." ||
      jsIncludes (posixNormalize (jsTrim relativePath)) "../" then
    some ⟨false, some "Path traversal not allowed", none⟩
  else if (jsSplitOnChar '/' (posixNormalize (jsTrim relativePath))).any
      (fun part => jsStartsWith part "." && part ≠ ".") then
    some ⟨false, some "Hidden files/directories not accessible", none⟩
  else if ¬ jsEndsWith (jsToLower (posixNormalize (jsTrim relativePath))) ".md" then
    some ⟨false, some "Only .md files can be retrieved", none⟩
  else if ¬ fs.existsSync (fullNotePath config relativePath) then
    some ⟨false, some "Note not found", none⟩
  else
    match fs.realpathSync (fullNotePath config relativePath) with
    | none => some ⟨false, some "Cannot resolve path", none⟩
    | some resolvedPath =>
      if ¬ jsStartsWith resolvedPath (config.resolvedVaultPath ++ "/") then
        some ⟨false, some "Path resolves outside vault", none⟩
      else
        match fs.statSync resolvedPath with
        | none => none
        | some fileStats =>
          if ¬ fileStats.isFile then some ⟨false, some "Path is not a file", none⟩
          else some ⟨true, none, some resolvedPath⟩

/-! ## Embedding validation (`validateEmbedding`, `validateLimit`) -/

/-- A JavaScript number: finite (idealized as an exact rational), or one
of the non-finite values. -/
inductive JsNumber where
  | fin (q : ℚ)
  | nan
  | posInf
  | negInf
deriving DecidableEq

/-- An element of the `unknown[]` array reaching `validateEmbedding`:
either a number or some non-number value. -/
inductive JsElem where
  | num (x : JsNumber)
  | other
deriving DecidableEq

/-- `typeof e === 'number' && isFinite(e)`. -/
def elemIsFiniteNumber : JsElem → Bool
  | .num (.fin _) => true
  | _ => false

/-- Index of the first element failing the `typeof`/`isFinite` check,
starting the count at `i` (the source's `for` loop). -/
def invalidAt : List JsElem → Nat → Option Nat
  | [], _ => none
  | e :: rest, i => if elemIsFiniteNumber e then invalidAt rest (i + 1) else some i

/-- `validateEmbedding` from `src/security.ts` (lines 196–218); `none`
input models a non-array argument. -/
def validateEmbedding (embedding : Option (List JsElem)) (expectedDimensions : Nat) :
    ValidationResult :=
  match embedding with
  | none => ⟨false, some "Embedding must be an array", none⟩
  | some l =>
    if l.length ≠ expectedDimensions then
      ⟨false, some ("Embedding must have " ++ toString expectedDimensions ++
        " dimensions, got " ++ toString l.length), none⟩
    else
      match invalidAt l 0 with
      | some i => ⟨false, some ("Invalid value at index " ++ toString i), none⟩
      | none => ⟨true, none, none⟩

/-- `validateLimit` from `src/security.ts` (lines 223–238): `none` models
`undefined`; a non-integer or out-of-range number makes the source throw
(`.error` here), which no caller catches. -/
def validateLimit (value : Option ℚ) (minv maxv : Nat) (label : String) : Except String Nat :=
  match value with
  | none => .ok minv
  | some v =>
    if v.den ≠ 1 then .error (label ++ " must be an integer")
    else if v < (minv : ℚ) ∨ (maxv : ℚ) < v then
      .error (label ++ " must be between " ++ toString minv ++ " and " ++ toString maxv)
    else .ok v.num.toNat

/-! ## JSON model (`JSON.parse`) -/

/-- Parsed JSON values.  Numbers are exact rationals (the idealization of
the numeric literal); object fields are kept in JavaScript property order
(first occurrence position, last value for duplicate keys). -/
inductive Json where
  | null
  | bool (b : Bool)
  | num (q : ℚ)
  | str (s : String)
  | arr (elems : List Json)
  | obj (fields : List (String × Json))

/-- `Map.prototype.set` / JavaScript object property insertion on an
association list: update in place keeping the original position, else
append. -/
def mapSet {α : Type} (m : List (String × α)) (k : String) (v : α) : List (String × α) :=
  if m.any (fun p => p.1 = k) then m.map (fun p => if p.1 = k then (k, v) else p)
  else m ++ [(k, v)]

/-- Duplicate keys in a JSON object text: last value wins, first position
kept (JavaScript property-creation order). -/
def dedupFields (l : List (String × Json)) : List (String × Json) :=
  l.foldl (fun acc kv => mapSet acc kv.1 kv.2) []

/-- JSON whitespace (`JSON.parse` accepts exactly these four). -/
def jsonWs (c : Char) : Bool := c = ' ' || c = '\t' || c = '\n' || c = '\r'

def skipWs (cs : List Char) : List Char := cs.dropWhile jsonWs

def hexVal (c : Char) : Option Nat :=
  if '0' ≤ c ∧ c ≤ '9' then some (c.toNat - 48)
  else if 'a' ≤ c ∧ c ≤ 'f' then some (c.toNat - 87)
  else if 'A' ≤ c ∧ c ≤ 'F' then some (c.toNat - 55)
  else none

def parseHex4 : List Char → Option (Nat × List Char)
  | a :: b :: c :: d :: rest => do
    let x ← hexVal a
    let y ← hexVal b
    let z ← hexVal c
    let w ← hexVal d
    pure (((x * 16 + y) * 16 + z) * 16 + w, rest)
  | _ => none

/-- A lone UTF-16 surrogate in a JSON string: not representable as a
Unicode scalar value / `Char`, rendered as U+FFFD (modelling choice; not
exercised by any theorem). -/
def surrogateChar (_n : Nat) : Char := '�'

/-- JSON string body after the opening quote; strict `JSON.parse` rules:
raw control characters below U+0020 are rejected, only the nine standard
escapes are accepted, `\uXXXX` pairs of surrogates combine. -/
def parseStringBody : Nat → List Char → List Char → Option (String × List Char)
  | 0, _, _ => none
  | _ + 1, _, [] => none
  | fuel + 1, acc, c :: rest =>
    if c = '"' then some (⟨acc.reverse⟩, rest)
    else if c = '\\' then
      match rest with
      | [] => none
      | e :: rest2 =>
        if e = '"' then parseStringBody fuel ('"' :: acc) rest2
        else if e = '\\' then parseStringBody fuel ('\\' :: acc) rest2
        else if e = '/' then parseStringBody fuel ('/' :: acc) rest2
        else if e = 'b' then parseStringBody fuel ('\x08' :: acc) rest2
        else if e = 'f' then parseStringBody fuel ('\x0c' :: acc) rest2
        else if e = 'n' then parseStringBody fuel ('\n' :: acc) rest2
        else if e = 'r' then parseStringBody fuel ('\r' :: acc) rest2
        else if e = 't' then parseStringBody fuel ('\t' :: acc) rest2
        else if e = 'u' then
          match parseHex4 rest2 with
          | none => none
          | some (n, rest3) =>
            if 0xD800 ≤ n ∧ n ≤ 0xDBFF then
              match rest3 with
              | '\\' :: 'u' :: rest4 =>
                match parseHex4 rest4 with
                | some (m, rest5) =>
                  if 0xDC00 ≤ m ∧ m ≤ 0xDFFF then
                    parseStringBody fuel
                      (Char.ofNat (0x10000 + (n - 0xD800) * 0x400 + (m - 0xDC00)) :: acc) rest5
                  else parseStringBody fuel (surrogateChar n :: acc) rest3
                | none => parseStringBody fuel (surrogateChar n :: acc) rest3
              | _ => parseStringBody fuel (surrogateChar n :: acc) rest3
            else parseStringBody fuel (Char.ofNat n :: acc) rest2
        else none
    else if c.toNat < 0x20 then none
    else parseStringBody fuel (c :: acc) rest

def isDigit (c : Char) : Bool := '0' ≤ c && c ≤ '9'

def digitsVal (ds : List Char) : Nat := ds.foldl (fun n c => n * 10 + (c.toNat - 48)) 0

/-- The exact rational `(-1)^neg · mantissa / 10^fracLen · 10^(expSign·expVal)`,
computed with plain integer arithmetic and one final `mkRat`. -/
def decimalValue (neg : Bool) (mantissa fracLen : Nat) (expNeg : Bool) (expVal : Nat) : ℚ :=
  let numAbs : Nat := if expNeg then mantissa else mantissa * 10 ^ expVal
  let den : Nat := if expNeg then 10 ^ fracLen * 10 ^ expVal else 10 ^ fracLen
  mkRat (if neg then -(numAbs : Int) else (numAbs : Int)) den

/-- JSON number grammar `-? (0 | [1-9][0-9]*) (. [0-9]+)? ([eE][+-]?[0-9]+)?`,
evaluated exactly over ℚ. -/
def parseNumber (cs : List Char) : Option (ℚ × List Char) :=
  let signed : Bool × List Char := match cs with
    | '-' :: t => (true, t)
    | _ => (false, cs)
  let neg := signed.1
  let cs1 := signed.2
  match cs1 with
  | [] => none
  | c :: _ =>
    if ¬ isDigit c then none
    else
      let intDigits := cs1.takeWhile isDigit
      let cs2 := cs1.dropWhile isDigit
      if 1 < intDigits.length ∧ intDigits.head? = some '0' then none
      else
        let fracSplit : Option (List Char) × List Char := match cs2 with
          | '.' :: t => (some (t.takeWhile isDigit), t.dropWhile isDigit)
          | _ => (none, cs2)
        match fracSplit with
        | (some [], _) => none
        | (frac, cs3) =>
          let fracDs := frac.getD []
          let mantissa := digitsVal (intDigits ++ fracDs)
          let expSplit : Option (Bool × List Char) := match cs3 with
            | e :: t =>
              if e = 'e' ∨ e = 'E' then
                match t with
                | '+' :: u => some (false, u)
                | '-' :: u => some (true, u)
                | _ => some (false, t)
              else none
            | [] => none
          match expSplit with
          | some (expNeg, t1) =>
            match t1.takeWhile isDigit with
            | [] => none
            | eds =>
              some (decimalValue neg mantissa fracDs.length expNeg (digitsVal eds),
                t1.dropWhile isDigit)
          | none => some (decimalValue neg mantissa fracDs.length false 0, cs3)

mutual

/-- One JSON value; `fuel` bounds recursion depth (the callers supply the
input length + 1, always sufficient because every recursive call consumes
at least one character first). -/
def parseVal : Nat → List Char → Option (Json × List Char)
  | 0, _ => none
  | fuel + 1, cs =>
    match cs with
    | [] => none
    | c :: rest =>
      if c = '\x7b' then
        match skipWs rest with
        | '\x7d' :: rest2 => some (Json.obj [], rest2)
        | cs2 =>
          match parseMembers fuel cs2 with
          | some (fields, rest2) => some (Json.obj (dedupFields fields), rest2)
          | none => none
      else if c = '[' then
        match skipWs rest with
        | ']' :: rest2 => some (Json.arr [], rest2)
        | cs2 =>
          match parseElems fuel cs2 with
          | some (elems, rest2) => some (Json.arr elems, rest2)
          | none => none
      else if c = '"' then
        match parseStringBody (rest.length + 1) [] rest with
        | some (s, rest2) => some (Json.str s, rest2)
        | none => none
      else if c = 't' then
        match rest with
        | 'r' :: 'u' :: 'e' :: r => some (Json.bool true, r)
        | _ => none
      else if c = 'f' then
        match rest with
        | 'a' :: 'l' :: 's' :: 'e' :: r => some (Json.bool false, r)
        | _ => none
      else if c = 'n' then
        match rest with
        | 'u' :: 'l' :: 'l' :: r => some (Json.null, r)
        | _ => none
      else
        match parseNumber cs with
        | some (q, rest2) => some (Json.num q, rest2)
        | none => none

/-- Members of a non-empty JSON object, positioned at the first key's
opening quote. -/
def parseMembers : Nat → List Char → Option (List (String × Json) × List Char)
  | 0, _ => none
  | fuel + 1, cs =>
    match cs with
    | '"' :: rest =>
      match parseStringBody (rest.length + 1) [] rest with
      | some (k, rest2) =>
        (match skipWs rest2 with
         | ':' :: rest3 =>
           match parseVal fuel (skipWs rest3) with
           | some (v, rest4) =>
             (match skipWs rest4 with
              | ',' :: rest5 =>
                match parseMembers fuel (skipWs rest5) with
                | some (fields, rest6) => some ((k, v) :: fields, rest6)
                | none => none
              | '\x7d' :: rest5 => some ([(k, v)], rest5)
              | _ => none)
           | none => none
         | _ => none)
      | none => none
    | _ => none

/-- Elements of a non-empty JSON array, positioned at the first value. -/
def parseElems : Nat → List Char → Option (List Json × List Char)
  | 0, _ => none
  | fuel + 1, cs =>
    match parseVal fuel cs with
    | some (v, rest) =>
      (match skipWs rest with
       | ',' :: rest2 =>
         match parseElems fuel (skipWs rest2) with
         | some (elems, rest3) => some (v :: elems, rest3)
         | none => none
       | ']' :: rest2 => some ([v], rest2)
       | _ => none)
    | none => none

end

/-- `JSON.parse`: a single value with optional surrounding whitespace and
nothing else. -/
def jsonParse (s : String) : Option Json :=
  match parseVal (s.data.length + 1) (skipWs s.data) with
  | some (v, rest) => if (skipWs rest).isEmpty then some v else none
  | none => none

/-! ## Data loading module (`src/data.ts`) -/

/-- `EmbeddingEntry` from `src/data.ts`.  The source stores the raw `vec`
array and the raw `blocks` value through unchecked type assertions, so
both are kept as raw JSON here. -/
structure EmbeddingEntry where
  path : String
  embedding : List Json
  blocks : Option Json

/-- Property lookup on a parsed JSON object. -/
def jsonLookup (fields : List (String × Json)) (k : String) : Option Json :=
  (fields.find? (fun f => f.1 = k)).map (fun f => f.2)

/-- Strip a single trailing comma if present (the `.ajson` repair step). -/
def stripTrailingComma (s : String) : String :=
  if jsEndsWith s "," then dropLastStr s else s

/-- Record-processing loop of `parseAjsonFile`.  A `smart_sources:` record
whose value is JSON `null` makes the source throw (`data.embeddings` on
`null` is a TypeError), modelled as `.error`; any other non-object value
just yields `undefined` lookups and is skipped. -/
def processRecords (modelKey : String) :
    List (String × Json) → List (String × EmbeddingEntry) →
    Except String (List (String × EmbeddingEntry))
  | [], entries => .ok entries
  | kv :: rest, entries =>
    if ¬ jsStartsWith kv.1 "smart_sources:" then processRecords modelKey rest entries
    else
      let notePath := dropLeadingStr kv.1 "smart_sources:"
      if jsIncludes notePath "#" then processRecords modelKey rest entries
      else
        match kv.2 with
        | Json.null => .error "TypeError: Cannot read properties of null"
        | Json.obj data =>
          (match jsonLookup data "embeddings" with
           | some (Json.obj embeddings) =>
             (match jsonLookup embeddings modelKey with
              | some (Json.obj modelData) =>
                (match jsonLookup modelData "vec" with
                 | some (Json.arr vec) =>
                   processRecords modelKey rest
                     (mapSet entries notePath ⟨notePath, vec, jsonLookup data "blocks"⟩)
                 | _ => processRecords modelKey rest entries)
              | _ => processRecords modelKey rest entries)
           | _ => processRecords modelKey rest entries)
        | _ => processRecords modelKey rest entries

/-- `parseAjsonFile` from `src/data.ts` (lines 168–228), taking the file
content as a string.  `.error` models an exception escaping to the
caller (`loadEmbeddings` catches it); a failed `JSON.parse` of the
repaired content is logged and yields an empty map, not an exception. -/
def parseAjsonFile (content : String) (modelKey : String) :
    Except String (List (String × EmbeddingEntry)) :=
  let c := jsTrim content
  if c = "" then .ok []
  else
    let jsonContent := stripTrailingComma c
    let wrappedContent := "\x7b" ++ jsonContent ++ "\x7d"
    match jsonParse wrappedContent with
    | none => .ok []
    | some (Json.obj fields) => processRecords modelKey fields []
    | some _ => .ok []

/-- One step of `loadEmbeddings`'s per-file loop: merge a parse result
into the accumulated index; a thrown parse (`.error`) is caught, logged
and skipped. -/
def mergeFileEntries (entries : List (String × EmbeddingEntry))
    (parsed : Except String (List (String × EmbeddingEntry))) :
    List (String × EmbeddingEntry) :=
  match parsed with
  | .error _ => entries
  | .ok fileEntries => fileEntries.foldl (fun es kv => mapSet es kv.1 kv.2) entries

/-- `loadEmbeddings` from `src/data.ts` (lines 134–159): the fragment
directory is given as a list of `(filename, content)` pairs in
enumeration order. -/
def loadEmbeddings (files : List (String × String)) (modelKey : String) :
    List (String × EmbeddingEntry) :=
  (files.filter (fun f => jsEndsWith f.1 ".ajson")).foldl
    (fun entries f => mergeFileEntries entries (parseAjsonFile f.2 modelKey)) []

/-! ## Search module (`src/search.ts`), over idealized real numbers -/

structure SearchResult where
  path : String
  title : String
  score : ℝ

/-- The one-pass loop of `cosineSimilarity` computes `dot`, `normA`,
`normB`; with equal lengths these are the zipWith sums below. -/
def dotProd (a b : List ℝ) : ℝ := (List.zipWith (fun x y => x * y) a b).sum

/-- `cosineSimilarity` from `src/search.ts` (lines 21–44): throws
(`.error`) on a length mismatch, returns 0 when the denominator is
exactly zero. -/
noncomputable def cosineSimilarity (a b : List ℝ) : Except String ℝ :=
  if a.length ≠ b.length then
    .error ("Vector dimension mismatch: " ++ toString a.length ++ " vs " ++ toString b.length)
  else
    let dot := dotProd a b
    let normA := dotProd a a
    let normB := dotProd b b
    let denominator := Real.sqrt normA * Real.sqrt normB
    if denominator = 0 then .ok 0 else .ok (dot / denominator)

/-- `Math.round`: floor of `x + 1/2` (JavaScript rounds half-up toward
positive infinity). -/
noncomputable def jsRound (x : ℝ) : ℤ := ⌊x + 1 / 2⌋

/-- `Math.round(score * 1000) / 1000`. -/
noncomputable def round3 (score : ℝ) : ℝ := (jsRound (score * 1000) : ℝ) / 1000

/-- The `excludePath && notePath === excludePath` guard: JavaScript
truthiness makes an empty-string `excludePath` behave as absent. -/
def excludeMatches (excludePath : Option String) (notePath : String) : Bool :=
  match excludePath with
  | some s => s ≠ "" && notePath = s
  | none => false

/-- The entries loop of `findSimilar`: skip the excluded path, compute the
cosine score (a throw propagates), keep hits with `score >= threshold`
carrying the rounded score, in iteration order. -/
noncomputable def collectResults (queryEmbedding : List ℝ) (excludePath : Option String)
    (threshold : ℝ) : List (String × List ℝ) → Except String (List SearchResult)
  | [] => .ok []
  | (notePath, vec) :: rest =>
    if excludeMatches excludePath notePath then
      collectResults queryEmbedding excludePath threshold rest
    else
      match cosineSimilarity queryEmbedding vec with
      | .error e => .error e
      | .ok score =>
        match collectResults queryEmbedding excludePath threshold rest with
        | .error e => .error e
        | .ok tail =>
          .ok (if threshold ≤ score then ⟨notePath, extractTitle notePath, round3 score⟩ :: tail
               else tail)

/-- Stable insertion used to model `results.sort((a, b) => b.score - a.score)`:
a later element goes after every already-placed element with a `≥` score.
ES2019 sort stability makes the stably-sorted output unique, so this
models the source's sort exactly. -/
noncomputable def insertHit (y : SearchResult) : List SearchResult → List SearchResult
  | [] => [y]
  | z :: zs => if y.score ≤ z.score then z :: insertHit y zs else y :: z :: zs

noncomputable def sortByScoreDesc (l : List SearchResult) : List SearchResult :=
  l.foldl (fun acc y => insertHit y acc) []

/-- `findSimilar` from `src/search.ts` (lines 49–85); the entries map is
an association list in `Map` iteration (insertion) order, `limit` is the
integer ≥ 0 the callers obtain from `validateLimit`. -/
noncomputable def findSimilar (queryEmbedding : List ℝ) (entries : List (String × List ℝ))
    (limit : Nat) (threshold : ℝ) (excludePath : Option String) :
    Except String (List SearchResult) :=
  match collectResults queryEmbedding excludePath threshold entries with
  | .error e => .error e
  | .ok results => .ok ((sortByScoreDesc results).take limit)

/-! ## Tool handlers (`src/tools.ts`) -/

/-- Payload of a tool result; `JSON.stringify` serialization of the
payload into the MCP text envelope is protocol glue outside this core. -/
inductive ToolPayload where
  | errorMsg (msg : String)
  | note (path title content : String)
  | searchResults (results : List SearchResult)

structure ToolResult where
  payload : ToolPayload
  isError : Bool

def errorResult (message : String) : ToolResult := ⟨.errorMsg message, true⟩

/-- Tool context: `config`, `ctx.data.modelInfo.dimensions` and
`ctx.data.entries` (with each entry's embedding idealized to reals). -/
structure ToolContext where
  config : Config
  dims : Nat
  entries : List (String × List ℝ)

/-- Arguments of `search_by_embedding` before zod validation: `none`
models a non-array `embedding`; `limit` and `threshold` are numbers
(defaults already applied). -/
structure SearchByEmbeddingArgs where
  embedding : Option (List JsElem)
  limit : ℚ
  threshold : ℚ

/-- `z.number()` element check: rejects non-numbers and `NaN`, accepts
infinities. -/
def zodNumberOk : JsElem → Bool
  | .num .nan => false
  | .num _ => true
  | .other => false

/-- `SearchByEmbeddingSchema.safeParse` success condition. -/
def searchByEmbeddingSchemaOk (args : SearchByEmbeddingArgs) : Bool :=
  (match args.embedding with
   | some l => l.all zodNumberOk
   | none => false)
  && decide ((1 : ℚ) ≤ args.limit) && decide (args.limit ≤ 50)
  && decide ((0 : ℚ) ≤ args.threshold) && decide (args.threshold ≤ 1)

/-- Idealization of a validated (finite) element as a real number; the
fallback 0 is never reached after `validateEmbedding` succeeds. -/
noncomputable def jsElemToReal : JsElem → ℝ
  | .num (.fin q) => (q : ℝ)
  | _ => 0

/-- `handleSearchByEmbedding` from `src/tools.ts` (lines 195–222).
`none` models an exception escaping the handler: the source has no
try/catch, so a throw from `validateLimit` or from `cosineSimilarity`
(inside `findSimilar`) crosses the request boundary uncaught. -/
noncomputable def handleSearchByEmbedding (args : SearchByEmbeddingArgs) (ctx : ToolContext) :
    Option ToolResult :=
  if ¬ searchByEmbeddingSchemaOk args then some (errorResult "Invalid arguments")
  else
    match args.embedding with
    | none => some (errorResult "Invalid arguments")
    | some l =>
      let validation := validateEmbedding (some l) ctx.dims
      if validation.valid = false then some (errorResult (validation.error.getD ""))
      else
        match validateLimit (some args.limit) 1 ctx.config.limits.maxResults "limit" with
        | .error _ => none
        | .ok n =>
          match findSimilar (l.map jsElemToReal) ctx.entries n ((args.threshold : ℝ)) none with
          | .error _ => none
          | .ok results => some ⟨.searchResults results, false⟩

/-- Marker appended by `handleGetNote` when content exceeds the cap. -/
def truncMarker : String := "\n\n[Content truncated - exceeded maximum length]"

/-- `handleGetNote` from `src/tools.ts` (lines 229–268).  The read is
wrapped in try/catch, so a read failure (including the unreachable
`resolvedPath` absence) produces the generic denial; the content cap
compares `content.length`, i.e. UTF-16 code units. -/
def handleGetNote (fs : FS) (cfg : Config) (notePath : String) : Option ToolResult :=
  match validateNotePath fs cfg notePath with
  | none => none
  | some validation =>
    if validation.valid = false then some (errorResult (validation.error.getD ""))
    else
      match validation.resolvedPath with
      | none => some (errorResult "Failed to read note")
      | some rp =>
        match fs.readFileSync rp with
        | .error _ => some (errorResult "Failed to read note")
        | .ok content0 =>
          let content :=
            if cfg.limits.maxContentLength < jsLength content0 then
              jsSliceUnits content0 cfg.limits.maxContentLength ++ truncMarker
            else content0
          some ⟨.note notePath (extractTitle notePath) content, false⟩

/-! ## Claim C1 — symlink containment of `validateNotePath` -/

/-- A startup-shaped configuration with canonical root `/vault` (the
limit values are the literals `validateConfig` installs). -/
def vaultCfg : Config := ⟨"/vault", "/vault", ⟨1000, 50, 10240⟩⟩

/-- C1: for every `Config` and candidate string, a valid outcome of
`validateNotePath` carries exactly the symlink-resolved real path of the
joined full path, and that real path starts with the canonical root
followed by the separator (part 1); whenever the full path
symlink-resolves to a target outside the canonical root the candidate is
rejected (part 2); and a candidate passing the lexical phase whose full
path exists and symlink-resolves to a regular file inside the root is
accepted with that resolved path (part 3) — so a symlink inside the root
pointing outside is rejected while one resolving to a regular `.md` file
inside the root is accepted. -/
theorem c1_pathguard_containment :
    (∀ (fs : FS) (cfg : Config) (p : String) (r : ValidationResult),
        validateNotePath fs cfg p = some r → r.valid = true →
        ∃ t, fs.realpathSync (fullNotePath cfg p) = some t ∧
          r.resolvedPath = some t ∧
          jsStartsWith t (cfg.resolvedVaultPath ++ "/") = true) ∧
    (∀ (fs : FS) (cfg : Config) (p : String) (t : String),
        fs.realpathSync (fullNotePath cfg p) = some t →
        jsStartsWith t (cfg.resolvedVaultPath ++ "/") = false →
        ∃ r, validateNotePath fs cfg p = some r ∧ r.valid = false) ∧
    (∀ (fs : FS) (cfg : Config) (p : String) (t : String),
        p ≠ "" →
        jsTrim p ≠ "" →
        jsStartsWith (jsTrim p) "/" = false →
        jsStartsWith (posixNormalize (jsTrim p)) ".." = false →
        jsIncludes (posixNormalize (jsTrim p)) "../" = false →
        (jsSplitOnChar '/' (posixNormalize (jsTrim p))).any
          (fun part => jsStartsWith part "." && part ≠ ".") = false →
        jsEndsWith (jsToLower (posixNormalize (jsTrim p))) ".md" = true →
        fs.existsSync (fullNotePath cfg p) = true →
        fs.realpathSync (fullNotePath cfg p) = some t →
        jsStartsWith t (cfg.resolvedVaultPath ++ "/") = true →
        fs.statSync t = some ⟨true⟩ →
        validateNotePath fs cfg p = some ⟨true, none, some t⟩) := by
  refine ⟨?_, ?_, ?_⟩
  · intro fs cfg p r h hv
    unfold validateNotePath at h
    by_cases h0 : p = ""
    · rw [if_pos h0] at h; injection h with h; subst h; simp at hv
    rw [if_neg h0] at h
    by_cases h1 : jsTrim p = ""
    · rw [if_pos h1] at h; injection h with h; subst h; simp at hv
    rw [if_neg h1] at h
    by_cases h2 : jsStartsWith (jsTrim p) "/" = true
    · rw [if_pos h2] at h; injection h with h; subst h; simp at hv
    rw [if_neg h2] at h
    by_cases h3 : (jsStartsWith (posixNormalize (jsTrim p)) ".." ||
        jsIncludes (posixNormalize (jsTrim p)) "../") = true
    · rw [if_pos h3] at h; injection h with h; subst h; simp at hv
    rw [if_neg h3] at h
    by_cases h4 : ((jsSplitOnChar '/' (posixNormalize (jsTrim p))).any
        (fun part => jsStartsWith part "." && part ≠ ".")) = true
    · rw [if_pos h4] at h; injection h with h; subst h; simp at hv
    rw [if_neg h4] at h
    by_cases h5 : jsEndsWith (jsToLower (posixNormalize (jsTrim p))) ".md" = true
    swap
    · rw [if_pos (by simpa using h5)] at h; injection h with h; subst h; simp at hv
    rw [if_neg (by simp [h5])] at h
    by_cases h6 : fs.existsSync (fullNotePath cfg p) = true
    swap
    · rw [if_pos (by simpa using h6)] at h; injection h with h; subst h; simp at hv
    rw [if_neg (by simp [h6])] at h
    cases hre : fs.realpathSync (fullNotePath cfg p) with
    | none => rw [hre] at h; dsimp only at h; injection h with h; subst h; simp at hv
    | some t =>
      rw [hre] at h
      dsimp only at h
      by_cases h7 : jsStartsWith t (cfg.resolvedVaultPath ++ "/") = true
      swap
      · rw [if_pos (by simpa using h7)] at h; injection h with h; subst h; simp at hv
      rw [if_neg (by simp [h7])] at h
      cases hst : fs.statSync t with
      | none => rw [hst] at h; exact Option.noConfusion h
      | some st =>
        rw [hst] at h
        dsimp only at h
        by_cases h8 : st.isFile = true
        swap
        · rw [if_pos (by simpa using h8)] at h; injection h with h; subst h; simp at hv
        rw [if_neg (by simp [h8])] at h
        injection h with h; subst h
        exact ⟨t, rfl, rfl, h7⟩
  · intro fs cfg p t hre hout
    unfold validateNotePath
    by_cases h0 : p = ""
    · rw [if_pos h0]; exact ⟨_, rfl, rfl⟩
    rw [if_neg h0]
    by_cases h1 : jsTrim p = ""
    · rw [if_pos h1]; exact ⟨_, rfl, rfl⟩
    rw [if_neg h1]
    by_cases h2 : jsStartsWith (jsTrim p) "/" = true
    · rw [if_pos h2]; exact ⟨_, rfl, rfl⟩
    rw [if_neg h2]
    by_cases h3 : (jsStartsWith (posixNormalize (jsTrim p)) ".." ||
        jsIncludes (posixNormalize (jsTrim p)) "../") = true
    · rw [if_pos h3]; exact ⟨_, rfl, rfl⟩
    rw [if_neg h3]
    by_cases h4 : ((jsSplitOnChar '/' (posixNormalize (jsTrim p))).any
        (fun part => jsStartsWith part "." && part ≠ ".")) = true
    · rw [if_pos h4]; exact ⟨_, rfl, rfl⟩
    rw [if_neg h4]
    by_cases h5 : jsEndsWith (jsToLower (posixNormalize (jsTrim p))) ".md" = true
    swap
    · rw [if_pos (by simpa using h5)]; exact ⟨_, rfl, rfl⟩
    rw [if_neg (by simp [h5])]
    by_cases h6 : fs.existsSync (fullNotePath cfg p) = true
    swap
    · rw [if_pos (by simpa using h6)]; exact ⟨_, rfl, rfl⟩
    refine ⟨⟨false, some "Path resolves outside vault", none⟩, ?_, rfl⟩
    rw [if_neg (by simp [h6]), hre]
    dsimp only
    rw [if_pos (by simp [hout])]
  · intro fs cfg p t h0 h1 h2 h3 h4 h5 h6 h7 h8 h9 h10
    unfold validateNotePath
    rw [if_neg h0, if_neg h1, if_neg (by simp [h2]), if_neg (by simp [h3, h4]),
      if_neg (by rw [h5]; simp), if_neg (by simp [h6]), if_neg (by simp [h7]), h8]
    dsimp only
    rw [if_neg (by simp [h9]), h10]
    dsimp only
    rw [if_neg (by simp)]

/-- Filesystem for the C1 witness: `notes/link.md` is a symlink whose
real path is the regular file `/vault/notes/real.md` inside the root. -/
def c1FsIn : FS :=
  ⟨fun s => s = "/vault/notes/link.md",
   fun s => if s = "/vault/notes/link.md" then some "/vault/notes/real.md" else none,
   fun s => if s = "/vault/notes/real.md" then some ⟨true⟩ else none,
   fun _ => .error "unused"⟩

/-- Filesystem for the C1 witness: `evil.md` is a symlink whose real path
`/etc/passwd` lies outside the canonical root. -/
def c1FsOut : FS :=
  ⟨fun s => s = "/vault/evil.md",
   fun s => if s = "/vault/evil.md" then some "/etc/passwd" else none,
   fun _ => none,
   fun _ => .error "unused"⟩

/-- Witness for C1: an in-root symlink to a regular `.md` file is accepted
with the resolved real path, and a symlink escaping the root is rejected. -/
theorem c1_witness :
    validateNotePath c1FsIn vaultCfg "notes/link.md" =
      some ⟨true, none, some "/vault/notes/real.md"⟩ ∧
    (∃ r, validateNotePath c1FsOut vaultCfg "evil.md" = some r ∧ r.valid = false) := by
  constructor
  · exact c1_pathguard_containment.2.2 c1FsIn vaultCfg "notes/link.md" "/vault/notes/real.md"
      (by decide) (by decide) (by decide) (by decide) (by decide) (by decide) (by decide)
      (by decide) (by decide) (by decide) (by decide)
  · exact c1_pathguard_containment.2.1 c1FsOut vaultCfg "evil.md" "/etc/passwd"
      (by decide) (by decide)

/-! ## Claim C2 — lexical traversal rejection -/

/-- Filesystem for the C2 counterexample: `/vault/b.md` exists and is a
regular file that resolves to itself. -/
def c2Fs : FS :=
  ⟨fun s => s = "/vault/b.md",
   fun s => if s = "/vault/b.md" then some "/vault/b.md" else none,
   fun s => if s = "/vault/b.md" then some ⟨true⟩ else none,
   fun _ => .error "unused"⟩

/-- C2 counterexample: the input `a/../b.md` contains a `../` sequence,
yet `validateNotePath` accepts it (the `..` collapses lexically during
normalization, after which filesystem checks run and succeed), so the
claim "every input containing `../` is rejected without filesystem
access" is false on the code. -/
theorem c2_counterexample :
    jsIncludes "a/../b.md" "../" = true ∧
    validateNotePath c2Fs vaultCfg "a/../b.md" = some ⟨true, none, some "/vault/b.md"⟩ :=
  ⟨by decide, by decide⟩

/-- C2 amended: for every input whose trimmed form is absolute, or whose
lexical normalization leaves a leading `..` segment or retains a `../`
sequence, `validateNotePath` rejects with an outcome that is identical
for every filesystem — i.e. before any filesystem operation can matter —
so locations outside the root are never probed for such inputs.  (Inputs
whose `../` sequences collapse away lexically, such as `a/../b.md`,
proceed to the filesystem phase confined inside the root.) -/
theorem c2_amended :
    ∀ (cfg : Config) (p : String) (fs fs' : FS),
      jsTrim p ≠ "" →
      (jsStartsWith (jsTrim p) "/" = true ∨
        (jsStartsWith (posixNormalize (jsTrim p)) ".." = true ∨
         jsIncludes (posixNormalize (jsTrim p)) "../" = true)) →
      validateNotePath fs cfg p = validateNotePath fs' cfg p ∧
      ∃ r, validateNotePath fs cfg p = some r ∧ r.valid = false := by
  intro cfg p fs fs' htrim hcase
  have hp : p ≠ "" := by
    intro he
    exact htrim (by rw [he]; rfl)
  unfold validateNotePath
  rw [if_neg hp, if_neg hp, if_neg htrim, if_neg htrim]
  rcases hcase with habs | htrav
  · rw [if_pos habs, if_pos habs]
    exact ⟨rfl, _, rfl, rfl⟩
  · have habs' : (jsStartsWith (posixNormalize (jsTrim p)) ".." ||
        jsIncludes (posixNormalize (jsTrim p)) "../") = true := by
      rcases htrav with h | h <;> simp [h]
    by_cases habs : jsStartsWith (jsTrim p) "/" = true
    · rw [if_pos habs, if_pos habs]
      exact ⟨rfl, _, rfl, rfl⟩
    · rw [if_neg habs, if_neg habs, if_pos habs', if_pos habs']
      exact ⟨rfl, _, rfl, rfl⟩

/-- Witness for C2 (amended): the traversal input `../../etc/passwd.md`
is rejected identically under two filesystems that disagree everywhere. -/
theorem c2_witness :
    validateNotePath c2Fs vaultCfg "../../etc/passwd.md" =
      validateNotePath c1FsOut vaultCfg "../../etc/passwd.md" ∧
    ∃ r, validateNotePath c2Fs vaultCfg "../../etc/passwd.md" = some r ∧ r.valid = false :=
  c2_amended vaultCfg "../../etc/passwd.md" c2Fs c1FsOut (by decide) (by right; left; decide)

/-! ## Claim C3 — the uncaught `statSync` exception -/

/-- Filesystem for C3: `/vault/note.md` exists and resolves to itself,
but `statSync` on the resolved path throws (e.g. the file vanished or
became unstattable between `realpathSync` and `statSync`). -/
def c3Fs : FS :=
  ⟨fun s => s = "/vault/note.md",
   fun s => if s = "/vault/note.md" then some "/vault/note.md" else none,
   fun _ => none,
   fun _ => .error "unused"⟩

/-- C3: `validateNotePath` is *not* total — when `fs.statSync` on the
final resolved path throws, the exception escapes the function (`none`),
because the source calls `statSync` outside its try/catch block
(`src/security.ts` line 165), contradicting the documented fail-closed
invariant that every filesystem error becomes a rejection outcome. -/
theorem c3_statSync_uncaught :
    validateNotePath c3Fs vaultCfg "note.md" = none := by decide

/-! ## Search lemmas -/

lemma mem_insertHit {x y : SearchResult} :
    ∀ {l : List SearchResult}, x ∈ insertHit y l ↔ x = y ∨ x ∈ l := by
  intro l
  induction l with
  | nil => simp [insertHit]
  | cons z zs ih =>
    unfold insertHit
    by_cases hc : y.score ≤ z.score
    · rw [if_pos hc]
      simp only [List.mem_cons, ih]
      tauto
    · rw [if_neg hc]
      simp only [List.mem_cons]

lemma insertHit_pairwise {y : SearchResult} :
    ∀ {l : List SearchResult}, l.Pairwise (fun a b => b.score ≤ a.score) →
      (insertHit y l).Pairwise (fun a b => b.score ≤ a.score) := by
  intro l
  induction l with
  | nil => intro _; simp [insertHit]
  | cons z zs ih =>
    intro h
    have hz := (List.pairwise_cons.mp h).1
    have hzs := (List.pairwise_cons.mp h).2
    unfold insertHit
    by_cases hc : y.score ≤ z.score
    · rw [if_pos hc]
      refine List.pairwise_cons.mpr ⟨?_, ih hzs⟩
      intro w hw
      rcases mem_insertHit.mp hw with rfl | hw'
      · exact hc
      · exact hz w hw'
    · rw [if_neg hc]
      refine List.pairwise_cons.mpr ⟨?_, h⟩
      intro w hw
      rcases List.mem_cons.mp hw with rfl | hw'
      · exact le_of_lt (lt_of_not_le hc)
      · exact le_trans (hz w hw') (le_of_lt (lt_of_not_le hc))

lemma sortByScoreDesc_pairwise (l : List SearchResult) :
    (sortByScoreDesc l).Pairwise (fun a b => b.score ≤ a.score) := by
  have key : ∀ (l acc : List SearchResult),
      acc.Pairwise (fun a b => b.score ≤ a.score) →
      (l.foldl (fun a y => insertHit y a) acc).Pairwise (fun a b => b.score ≤ a.score) := by
    intro l
    induction l with
    | nil => intro acc h; simpa using h
    | cons x xs ih => intro acc h; exact ih _ (insertHit_pairwise h)
  exact key l [] (by simp)

lemma mem_sortByScoreDesc {x : SearchResult} {l : List SearchResult} :
    x ∈ sortByScoreDesc l ↔ x ∈ l := by
  have key : ∀ (l acc : List SearchResult),
      x ∈ l.foldl (fun a y => insertHit y a) acc ↔ x ∈ acc ∨ x ∈ l := by
    intro l
    induction l with
    | nil => intro acc; simp
    | cons z zs ih =>
      intro acc
      simp only [List.foldl_cons, ih, mem_insertHit, List.mem_cons]
      tauto
  unfold sortByScoreDesc
  rw [key l []]
  simp

lemma cosineSimilarity_ok_of_length {a b : List ℝ} (h : a.length = b.length) :
    ∃ s, cosineSimilarity a b = .ok s := by
  unfold cosineSimilarity
  rw [if_neg (by simp [h])]
  dsimp only
  by_cases hz : Real.sqrt (dotProd a a) * Real.sqrt (dotProd b b) = 0
  · rw [if_pos hz]; exact ⟨0, rfl⟩
  · rw [if_neg hz]; exact ⟨_, rfl⟩

lemma cosineSimilarity_error_of_length {a b : List ℝ} (h : a.length ≠ b.length) :
    cosineSimilarity a b =
      .error ("Vector dimension mismatch: " ++ toString a.length ++ " vs " ++ toString b.length) := by
  unfold cosineSimilarity
  rw [if_pos h]

/-- Evaluation helper for `cosineSimilarity` at concrete vectors. -/
lemma cosineSimilarity_eval {a b : List ℝ} {d na nb ra rb v : ℝ}
    (hlen : a.length = b.length)
    (hd : dotProd a b = d) (ha : dotProd a a = na) (hb : dotProd b b = nb)
    (hra : Real.sqrt na = ra) (hrb : Real.sqrt nb = rb)
    (hnz : ra * rb ≠ 0) (hval : d / (ra * rb) = v) :
    cosineSimilarity a b = .ok v := by
  unfold cosineSimilarity
  rw [if_neg (by simp [hlen])]
  dsimp only
  rw [hd, ha, hb, hra, hrb, if_neg hnz, hval]

lemma collectResults_mem {q : List ℝ} {ex : Option String} {th : ℝ} :
    ∀ {entries : List (String × List ℝ)} {res : List SearchResult},
      collectResults q ex th entries = .ok res →
      ∀ hit ∈ res, ∃ p vec s, (p, vec) ∈ entries ∧
        hit = ⟨p, extractTitle p, round3 s⟩ ∧ cosineSimilarity q vec = .ok s ∧
        th ≤ s ∧ excludeMatches ex p = false := by
  intro entries
  induction entries with
  | nil =>
    intro res h hit hm
    rw [show collectResults q ex th [] = .ok [] from rfl] at h
    injection h with h
    subst h
    simp at hm
  | cons pv rest ih =>
    intro res h hit hm
    obtain ⟨p, vec⟩ := pv
    rw [collectResults] at h
    by_cases hex : excludeMatches ex p = true
    · rw [if_pos hex] at h
      obtain ⟨p', vec', s, hmem, he, hc, hts, hexf⟩ := ih h hit hm
      exact ⟨p', vec', s, List.mem_cons_of_mem _ hmem, he, hc, hts, hexf⟩
    · rw [if_neg hex] at h
      cases hc : cosineSimilarity q vec with
      | error e => rw [hc] at h; exact absurd h (by simp)
      | ok score =>
        rw [hc] at h
        dsimp only at h
        cases hrest : collectResults q ex th rest with
        | error e => rw [hrest] at h; exact absurd h (by simp)
        | ok tail =>
          rw [hrest] at h
          dsimp only at h
          by_cases hts : th ≤ score
          · rw [if_pos hts] at h
            injection h with h
            subst h
            rcases List.mem_cons.mp hm with rfl | hm'
            · exact ⟨p, vec, score, List.mem_cons_self _ _, rfl, hc, hts, by simpa using hex⟩
            · obtain ⟨p', vec', s, hmem, he, hcc, hts', hexf⟩ := ih hrest hit hm'
              exact ⟨p', vec', s, List.mem_cons_of_mem _ hmem, he, hcc, hts', hexf⟩
          · rw [if_neg hts] at h
            injection h with h
            subst h
            obtain ⟨p', vec', s, hmem, he, hcc, hts', hexf⟩ := ih hrest hit hm
            exact ⟨p', vec', s, List.mem_cons_of_mem _ hmem, he, hcc, hts', hexf⟩

lemma collectResults_error {q : List ℝ} {ex : Option String} {th : ℝ} :
    ∀ {entries : List (String × List ℝ)},
      (∃ pv ∈ entries, excludeMatches ex pv.1 = false ∧ pv.2.length ≠ q.length) →
      ∃ e, collectResults q ex th entries = .error e := by
  intro entries
  induction entries with
  | nil => rintro ⟨pv, hm, -⟩; simp at hm
  | cons hd rest ih =>
    rintro ⟨pv, hm, hexf, hlen⟩
    obtain ⟨p, vec⟩ := hd
    rw [collectResults]
    rcases List.mem_cons.mp hm with rfl | hm'
    · rw [if_neg (by simp [hexf])]
      rw [cosineSimilarity_error_of_length (Ne.symm hlen)]
      exact ⟨_, rfl⟩
    · by_cases hex : excludeMatches ex p = true
      · rw [if_pos hex]
        exact ih ⟨pv, hm', hexf, hlen⟩
      · rw [if_neg hex]
        cases hc : cosineSimilarity q vec with
        | error e => exact ⟨e, rfl⟩
        | ok s =>
          dsimp only
          obtain ⟨e, he⟩ := ih ⟨pv, hm', hexf, hlen⟩
          rw [he]
          exact ⟨e, rfl⟩

/-- Evaluation helper for `round3` at concrete scores. -/
lemma round3_eval {s : ℝ} {z : ℤ} {v : ℝ}
    (h1 : (z : ℝ) ≤ s * 1000 + 1 / 2) (h2 : s * 1000 + 1 / 2 < z + 1)
    (hv : (z : ℝ) / 1000 = v) : round3 s = v := by
  unfold round3 jsRound
  rw [Int.floor_eq_iff.mpr ⟨h1, h2⟩, hv]

lemma sqrt_25 : Real.sqrt 25 = 5 := by
  rw [show (25 : ℝ) = 5 ^ 2 by norm_num]
  exact Real.sqrt_sq (by norm_num)

lemma sqrt_2809 : Real.sqrt 2809 = 53 := by
  rw [show (2809 : ℝ) = 53 ^ 2 by norm_num]
  exact Real.sqrt_sq (by norm_num)

lemma sqrt_9409 : Real.sqrt 9409 = 97 := by
  rw [show (9409 : ℝ) = 97 ^ 2 by norm_num]
  exact Real.sqrt_sq (by norm_num)

/-- `cosine([3,4], [65,72]) = 483/485 ≈ 0.99588` (exact: 5·97 = 485). -/
lemma cos_34_6572 : cosineSimilarity [3, 4] [65, 72] = .ok (483 / 485) := by
  have hd : dotProd [(3 : ℝ), 4] [65, 72] = 483 := by simp [dotProd]; norm_num
  have ha : dotProd [(3 : ℝ), 4] [3, 4] = 25 := by simp [dotProd]; norm_num
  have hb : dotProd [(65 : ℝ), 72] [65, 72] = 9409 := by simp [dotProd]; norm_num
  exact cosineSimilarity_eval rfl hd ha hb sqrt_25 sqrt_9409 (by norm_num) (by norm_num)

/-- `cosine([3,4], [28,45]) = 264/265 ≈ 0.99623` (exact: 5·53 = 265). -/
lemma cos_34_2845 : cosineSimilarity [3, 4] [28, 45] = .ok (264 / 265) := by
  have hd : dotProd [(3 : ℝ), 4] [28, 45] = 264 := by simp [dotProd]; norm_num
  have ha : dotProd [(3 : ℝ), 4] [3, 4] = 25 := by simp [dotProd]; norm_num
  have hb : dotProd [(28 : ℝ), 45] [28, 45] = 2809 := by simp [dotProd]; norm_num
  exact cosineSimilarity_eval rfl hd ha hb sqrt_25 sqrt_2809 (by norm_num) (by norm_num)

/-- Both unrounded scores round to the same presented value `0.996`. -/
lemma round3_483_485 : round3 (483 / 485) = 996 / 1000 :=
  @round3_eval (483 / 485) 996 (996 / 1000) (by norm_num) (by norm_num) (by norm_num)

lemma round3_264_265 : round3 (264 / 265) = 996 / 1000 :=
  @round3_eval (264 / 265) 996 (996 / 1000) (by norm_num) (by norm_num) (by norm_num)

/-! ## Claim C5 — what the engine sorts by -/

/-- C5 counterexample: with query `[3,4]` the entry `b.md = [28,45]` has a
strictly larger unrounded cosine score (264/265) than `a.md = [65,72]`
(483/485), so sorting by unrounded scores would place `b.md` first; but
both round to 0.996, the code stores the rounded score before its stable
sort, and the returned order is the index order `a.md, b.md` — refuting
the claim that hits are ordered by the unrounded scores. -/
theorem c5_counterexample :
    findSimilar [3, 4] [("a.md", [65, 72]), ("b.md", [28, 45])] 10 (3 / 10) none =
      .ok [⟨"a.md", "a", 996 / 1000⟩, ⟨"b.md", "b", 996 / 1000⟩] ∧
    cosineSimilarity [3, 4] [65, 72] = .ok (483 / 485) ∧
    cosineSimilarity [3, 4] [28, 45] = .ok (264 / 265) ∧
    (483 / 485 : ℝ) < 264 / 265 := by
  have hnil : collectResults [(3 : ℝ), 4] none (3 / 10) [] = .ok [] := rfl
  have hcollect : collectResults [(3 : ℝ), 4] none (3 / 10)
      [("a.md", [65, 72]), ("b.md", [28, 45])] =
      .ok [⟨"a.md", "a", 996 / 1000⟩, ⟨"b.md", "b", 996 / 1000⟩] := by
    rw [collectResults, if_neg (by decide), cos_34_6572]
    dsimp only
    rw [collectResults, if_neg (by decide), cos_34_2845]
    dsimp only
    rw [hnil]
    dsimp only
    rw [if_pos (by norm_num : (3 : ℝ) / 10 ≤ 264 / 265)]
    rw [if_pos (by norm_num : (3 : ℝ) / 10 ≤ 483 / 485)]
    rw [round3_483_485, round3_264_265]
    rw [show extractTitle "a.md" = "a" by decide, show extractTitle "b.md" = "b" by decide]
  refine ⟨?_, cos_34_6572, cos_34_2845, by norm_num⟩
  unfold findSimilar
  rw [hcollect]
  dsimp only
  unfold sortByScoreDesc
  simp only [List.foldl_cons, List.foldl_nil]
  rw [show insertHit (⟨"a.md", "a", 996 / 1000⟩ : SearchResult) [] =
    [⟨"a.md", "a", 996 / 1000⟩] from rfl]
  rw [insertHit, if_pos (by norm_num)]
  rw [show insertHit (⟨"b.md", "b", 996 / 1000⟩ : SearchResult) [] =
    [⟨"b.md", "b", 996 / 1000⟩] from rfl]
  rfl

/-- C5 amended: the ordering of the hits returned by `findSimilar` is by
the *stored, 3-decimal-rounded* scores, descending (ties keep index
iteration order, as the stable sort runs after rounding); every returned
hit's score field is `round3` of that entry's unrounded cosine score, so
rounding can merge distinct unrounded scores, in which case index order
— not the unrounded scores — decides precedence. -/
theorem c5_amended :
    ∀ (q : List ℝ) (entries : List (String × List ℝ)) (limit : Nat) (th : ℝ)
      (ex : Option String) (out : List SearchResult),
      findSimilar q entries limit th ex = .ok out →
      out.Pairwise (fun a b => b.score ≤ a.score) ∧
      ∀ hit ∈ out, ∃ p vec s, (p, vec) ∈ entries ∧
        hit = ⟨p, extractTitle p, round3 s⟩ ∧ cosineSimilarity q vec = .ok s := by
  intro q entries limit th ex out h
  unfold findSimilar at h
  cases hc : collectResults q ex th entries with
  | error e => rw [hc] at h; exact absurd h (by simp)
  | ok results =>
    rw [hc] at h
    dsimp only at h
    injection h with h
    subst h
    constructor
    · exact (sortByScoreDesc_pairwise results).sublist (List.take_sublist _ _)
    · intro hit hm
      have hm' : hit ∈ results :=
        mem_sortByScoreDesc.mp (List.mem_of_mem_take hm)
      obtain ⟨p, vec, s, hmem, he, hcc, -, -⟩ := collectResults_mem hc hit hm'
      exact ⟨p, vec, s, hmem, he, hcc⟩

/-- Evaluation of `findSimilar` at the C5 witness input. -/
lemma c5_witness_eval :
    findSimilar [1] [("x.md", [1])] 5 0 none = .ok [⟨"x.md", "x", 1000 / 1000⟩] := by
  have hcos : cosineSimilarity [(1 : ℝ)] [1] = .ok 1 := by
    have hd : dotProd [(1 : ℝ)] [1] = 1 := by simp [dotProd]
    exact cosineSimilarity_eval rfl hd hd hd Real.sqrt_one Real.sqrt_one (by norm_num)
      (by norm_num)
  have hr : round3 (1 : ℝ) = 1000 / 1000 :=
    @round3_eval 1 1000 (1000 / 1000) (by norm_num) (by norm_num) (by norm_num)
  have hcollect : collectResults [(1 : ℝ)] none 0 [("x.md", [1])] =
      .ok [⟨"x.md", "x", 1000 / 1000⟩] := by
    rw [collectResults, if_neg (by decide), hcos]
    dsimp only
    rw [show collectResults [(1 : ℝ)] none 0 [] = .ok [] from rfl]
    dsimp only
    rw [if_pos (by norm_num : (0 : ℝ) ≤ 1), hr,
      show extractTitle "x.md" = "x" by decide]
  unfold findSimilar
  rw [hcollect]
  rfl

/-- Witness for C5 (amended) at a concrete one-entry index. -/
theorem c5_witness :
    findSimilar [1] [("x.md", [1])] 5 0 none = .ok [⟨"x.md", "x", 1000 / 1000⟩] ∧
    (List.Pairwise (fun a b => b.score ≤ a.score) [(⟨"x.md", "x", 1000 / 1000⟩ : SearchResult)] ∧
      ∀ hit ∈ [(⟨"x.md", "x", (1000 : ℝ) / 1000⟩ : SearchResult)], ∃ p vec s,
        (p, vec) ∈ [("x.md", [(1 : ℝ)])] ∧ hit = ⟨p, extractTitle p, round3 s⟩ ∧
        cosineSimilarity [1] vec = .ok s) :=
  ⟨c5_witness_eval, c5_amended [1] [("x.md", [1])] 5 0 none _ c5_witness_eval⟩

/-! ## Claim C6 — limit, threshold and exclude guarantees -/

/-- C6 counterexample: with threshold `0.9961` the entry `a.md` (unrounded
score 264/265 ≈ 0.99623 ≥ 0.9961) is included, but the returned hit's
presented score is the rounded `0.996 < 0.9961` — the sequence contains a
hit whose score field is below the threshold, refuting the claim as
stated. -/
theorem c6_counterexample :
    findSimilar [3, 4] [("a.md", [28, 45])] 10 (9961 / 10000) none =
      .ok [⟨"a.md", "a", 996 / 1000⟩] ∧
    (996 / 1000 : ℝ) < 9961 / 10000 := by
  have hcollect : collectResults [(3 : ℝ), 4] (none) (9961 / 10000) [("a.md", [28, 45])] =
      .ok [⟨"a.md", "a", 996 / 1000⟩] := by
    rw [collectResults, if_neg (by decide), cos_34_2845]
    dsimp only
    rw [show collectResults [(3 : ℝ), 4] none (9961 / 10000) [] = .ok [] from rfl]
    dsimp only
    rw [if_pos (by norm_num : (9961 : ℝ) / 10000 ≤ 264 / 265), round3_264_265,
      show extractTitle "a.md" = "a" by decide]
  refine ⟨?_, by norm_num⟩
  unfold findSimilar
  rw [hcollect]
  rfl

/-- C6 amended: `findSimilar` returns at most `limit` hits; every returned
hit comes from an entry whose *unrounded* cosine score is at least
`threshold` (the presented rounded score can fall below the threshold by
less than half a thousandth); and a *non-empty* `exclude` identifier never
appears among the hits (an empty-string exclude is disabled by JavaScript
truthiness). -/
theorem c6_amended :
    ∀ (q : List ℝ) (entries : List (String × List ℝ)) (limit : Nat) (th : ℝ)
      (ex : Option String) (out : List SearchResult),
      findSimilar q entries limit th ex = .ok out →
      out.length ≤ limit ∧
      (∀ hit ∈ out, ∃ vec s, (hit.path, vec) ∈ entries ∧
        cosineSimilarity q vec = .ok s ∧ th ≤ s) ∧
      (∀ x, ex = some x → x ≠ "" → ∀ hit ∈ out, hit.path ≠ x) := by
  intro q entries limit th ex out h
  unfold findSimilar at h
  cases hc : collectResults q ex th entries with
  | error e => rw [hc] at h; exact absurd h (by simp)
  | ok results =>
    rw [hc] at h
    dsimp only at h
    injection h with h
    subst h
    refine ⟨List.length_take_le _ _, ?_, ?_⟩
    · intro hit hm
      have hm' : hit ∈ results :=
        mem_sortByScoreDesc.mp (List.mem_of_mem_take hm)
      obtain ⟨p, vec, s, hmem, he, hcc, hts, -⟩ := collectResults_mem hc hit hm'
      subst he
      exact ⟨vec, s, hmem, hcc, hts⟩
    · intro x hx hxne hit hm
      have hm' : hit ∈ results :=
        mem_sortByScoreDesc.mp (List.mem_of_mem_take hm)
      obtain ⟨p, vec, s, hmem, he, hcc, hts, hexf⟩ := collectResults_mem hc hit hm'
      subst he
      subst hx
      intro hcontra
      have hpx : p = x := hcontra
      simp only [excludeMatches, hpx] at hexf
      simp [hxne] at hexf

/-- Evaluation of `findSimilar` at the C6 witness input (the excluded
entry `z.md` is skipped before scoring, limit 1 caps the result). -/
lemma c6_witness_eval :
    findSimilar [2] [("y.md", [2]), ("z.md", [2])] 1 0 (some "z.md") =
      .ok [⟨"y.md", "y", 1000 / 1000⟩] := by
  have hcos : cosineSimilarity [(2 : ℝ)] [2] = .ok 1 := by
    have hd : dotProd [(2 : ℝ)] [2] = 4 := by simp [dotProd]; norm_num
    have hs : Real.sqrt 4 = 2 := by
      rw [show (4 : ℝ) = 2 ^ 2 by norm_num]
      exact Real.sqrt_sq (by norm_num)
    exact cosineSimilarity_eval rfl hd hd hd hs hs (by norm_num) (by norm_num)
  have hr : round3 (1 : ℝ) = 1000 / 1000 :=
    @round3_eval 1 1000 (1000 / 1000) (by norm_num) (by norm_num) (by norm_num)
  have hcollect : collectResults [(2 : ℝ)] (some "z.md") 0 [("y.md", [2]), ("z.md", [2])] =
      .ok [⟨"y.md", "y", 1000 / 1000⟩] := by
    rw [collectResults, if_neg (by decide), hcos]
    dsimp only
    rw [collectResults, if_pos (by decide)]
    rw [show collectResults [(2 : ℝ)] (some "z.md") 0 [] = .ok [] from rfl]
    dsimp only
    rw [if_pos (by norm_num : (0 : ℝ) ≤ 1), hr, show extractTitle "y.md" = "y" by decide]
  unfold findSimilar
  rw [hcollect]
  rfl

/-- Witness for C6 (amended) at a concrete two-entry index with a
non-empty exclude identifier. -/
theorem c6_witness :
    findSimilar [2] [("y.md", [2]), ("z.md", [2])] 1 0 (some "z.md") =
      .ok [⟨"y.md", "y", 1000 / 1000⟩] ∧
    ([(⟨"y.md", "y", (1000 : ℝ) / 1000⟩ : SearchResult)].length ≤ 1 ∧
      (∀ hit ∈ [(⟨"y.md", "y", (1000 : ℝ) / 1000⟩ : SearchResult)], ∃ vec s,
        (hit.path, vec) ∈ [("y.md", [(2 : ℝ)]), ("z.md", [2])] ∧
        cosineSimilarity [2] vec = .ok s ∧ (0 : ℝ) ≤ s) ∧
      (∀ x, (some "z.md" : Option String) = some x → x ≠ "" →
        ∀ hit ∈ [(⟨"y.md", "y", (1000 : ℝ) / 1000⟩ : SearchResult)], hit.path ≠ x)) :=
  ⟨c6_witness_eval,
   c6_amended [2] [("y.md", [2]), ("z.md", [2])] 1 0 (some "z.md") _ c6_witness_eval⟩

/-! ## Claim C7 — algebraic laws of `cosineSimilarity` -/

lemma dotProd_cons (x y : ℝ) (a b : List ℝ) :
    dotProd (x :: a) (y :: b) = x * y + dotProd a b := by
  simp [dotProd]

lemma dotProd_comm (a b : List ℝ) : dotProd a b = dotProd b a := by
  unfold dotProd
  rw [List.zipWith_comm_of_comm]
  intro x y
  ring

lemma dotProd_self_nonneg : ∀ a : List ℝ, 0 ≤ dotProd a a := by
  intro a
  induction a with
  | nil => simp [dotProd]
  | cons x l ih =>
    rw [dotProd_cons]
    exact add_nonneg (mul_self_nonneg x) ih

lemma dotProd_self_pos : ∀ (a : List ℝ), (∃ x ∈ a, x ≠ 0) → 0 < dotProd a a := by
  intro a
  induction a with
  | nil => rintro ⟨x, hx, -⟩; simp at hx
  | cons y l ih =>
    rintro ⟨x, hx, hxne⟩
    rw [dotProd_cons]
    rcases List.mem_cons.mp hx with rfl | hx'
    · exact add_pos_of_pos_of_nonneg (mul_self_pos.mpr hxne) (dotProd_self_nonneg l)
    · exact add_pos_of_nonneg_of_pos (mul_self_nonneg y) (ih ⟨x, hx', hxne⟩)

/-- C7 counterexample: the pair `([0], [0, 0])` has a zero-norm member,
yet `cosineSimilarity` does not return 0 — the length guard throws a
dimension-mismatch error first, so "for every vector pair in which either
vector has zero norm, cosineSimilarity returns 0" is false as stated. -/
theorem c7_counterexample :
    Real.sqrt (dotProd [(0 : ℝ)] [0]) = 0 ∧
    cosineSimilarity [(0 : ℝ)] [0, 0] ≠ .ok 0 := by
  constructor
  · simp [dotProd]
  · rw [cosineSimilarity_error_of_length (by norm_num)]
    simp

/-- C7 amended: for equal-length vectors `cosineSimilarity` is symmetric;
for every non-zero vector `a`, `cosineSimilarity a a = 1`; and for every
*equal-length* pair in which either vector has zero norm the result is 0
(never a thrown division error) — a pair of *different* lengths instead
reports a dimension-mismatch error even when a member has zero norm. -/
theorem c7_amended :
    (∀ a b : List ℝ, a.length = b.length →
      cosineSimilarity a b = cosineSimilarity b a) ∧
    (∀ a : List ℝ, (∃ x ∈ a, x ≠ 0) → cosineSimilarity a a = .ok 1) ∧
    (∀ a b : List ℝ, a.length = b.length →
      (Real.sqrt (dotProd a a) = 0 ∨ Real.sqrt (dotProd b b) = 0) →
      cosineSimilarity a b = .ok 0) := by
  refine ⟨?_, ?_, ?_⟩
  · intro a b hlen
    unfold cosineSimilarity
    rw [if_neg (show ¬ a.length ≠ b.length by simp [hlen]),
      if_neg (show ¬ b.length ≠ a.length by simp [hlen])]
    dsimp only
    rw [dotProd_comm a b, mul_comm (Real.sqrt (dotProd a a)) (Real.sqrt (dotProd b b))]
  · intro a ha
    have hD : 0 < dotProd a a := dotProd_self_pos a ha
    unfold cosineSimilarity
    rw [if_neg (by simp)]
    dsimp only
    rw [Real.mul_self_sqrt hD.le, if_neg hD.ne', div_self hD.ne']
  · intro a b hlen hz
    unfold cosineSimilarity
    rw [if_neg (by simp [hlen])]
    dsimp only
    rcases hz with h | h
    · rw [h, zero_mul, if_pos rfl]
    · rw [h, mul_zero, if_pos rfl]

/-- Witness for C7 (amended): symmetry at `[1,2]`/`[2,1]`, self-similarity
1 at `[3]`, and zero-norm result 0 at `([0], [5])`. -/
theorem c7_witness :
    cosineSimilarity [(1 : ℝ), 2] [2, 1] = cosineSimilarity [2, 1] [1, 2] ∧
    cosineSimilarity [(3 : ℝ)] [3] = .ok 1 ∧
    cosineSimilarity [(0 : ℝ)] [5] = .ok 0 :=
  ⟨c7_amended.1 [1, 2] [2, 1] rfl,
   c7_amended.2.1 [3] ⟨3, by simp, by norm_num⟩,
   c7_amended.2.2 [0] [5] rfl (Or.inl (by simp [dotProd]))⟩

/-! ## Claim C4 — dimension mismatch handling in `search_by_embedding` -/

lemma invalidAt_none_of_all : ∀ (l : List JsElem) (i : Nat),
    (∀ e ∈ l, elemIsFiniteNumber e = true) → invalidAt l i = none := by
  intro l
  induction l with
  | nil => intro i _; rfl
  | cons e rest ih =>
    intro i h
    unfold invalidAt
    rw [if_pos (h e (List.mem_cons_self _ _))]
    exact ih _ (fun x hx => h x (List.mem_cons_of_mem _ hx))

/-- C4 counterexample: the query `[1]` matches the model dimensionality
(1), passes `validateEmbedding`, and then `cosineSimilarity` throws on
the indexed entry of length 2; no try/catch exists in the handler, so the
fault escapes the request boundary (`none`) instead of being returned as
a typed error result. -/
theorem c4_counterexample :
    handleSearchByEmbedding ⟨some [JsElem.num (.fin 1)], 10, mkRat 3 10⟩
      ⟨vaultCfg, 1, [("a.md", [1, 2])]⟩ = none := rfl

/-- C4 amended: a query whose length differs from the model
dimensionality is rejected with the typed `validateEmbedding` error
(never coerced); but when the query length matches the model while some
indexed entry's vector length differs, the `cosineSimilarity` throw
escapes `handleSearchByEmbedding` uncaught — the per-request typed-error
guarantee holds only for the model-dimensionality check. -/
theorem c4_amended :
    (∀ (ctx : ToolContext) (l : List JsElem) (limit threshold : ℚ),
      searchByEmbeddingSchemaOk ⟨some l, limit, threshold⟩ = true →
      l.length ≠ ctx.dims →
      handleSearchByEmbedding ⟨some l, limit, threshold⟩ ctx =
        some (errorResult ("Embedding must have " ++ toString ctx.dims ++
          " dimensions, got " ++ toString l.length))) ∧
    (∀ (ctx : ToolContext) (l : List JsElem) (limit threshold : ℚ) (n : Nat),
      searchByEmbeddingSchemaOk ⟨some l, limit, threshold⟩ = true →
      l.length = ctx.dims →
      (∀ e ∈ l, elemIsFiniteNumber e = true) →
      validateLimit (some limit) 1 ctx.config.limits.maxResults "limit" = .ok n →
      (∃ pv ∈ ctx.entries, pv.2.length ≠ l.length) →
      handleSearchByEmbedding ⟨some l, limit, threshold⟩ ctx = none) := by
  constructor
  · intro ctx l limit threshold hschema hlen
    unfold handleSearchByEmbedding
    rw [if_neg (by simp [hschema])]
    dsimp only
    have hv : validateEmbedding (some l) ctx.dims =
        ⟨false, some ("Embedding must have " ++ toString ctx.dims ++
          " dimensions, got " ++ toString l.length), none⟩ := by
      unfold validateEmbedding
      dsimp only
      rw [if_pos hlen]
    rw [hv]
    rfl
  · intro ctx l limit threshold n hschema hlen hfin hvl hmis
    obtain ⟨pv, hpv, hplen⟩ := hmis
    unfold handleSearchByEmbedding
    rw [if_neg (by simp [hschema])]
    dsimp only
    have hv : validateEmbedding (some l) ctx.dims = ⟨true, none, none⟩ := by
      unfold validateEmbedding
      dsimp only
      rw [if_neg (by simp [hlen]), invalidAt_none_of_all l 0 hfin]
    rw [hv]
    rw [if_neg (by simp)]
    rw [hvl]
    dsimp only
    obtain ⟨e, he⟩ := @collectResults_error (l.map jsElemToReal) none
      ((threshold : ℚ) : ℝ) ctx.entries ⟨pv, hpv, rfl, by simpa using hplen⟩
    unfold findSimilar
    rw [he]

/-- Witness for C4 (amended): part 1 at a 1-element query against model
dimensionality 2 (typed error), part 2 at a dimension-matching query
whose single indexed entry has length 2 (uncaught fault). -/
theorem c4_witness :
    handleSearchByEmbedding ⟨some [JsElem.num (.fin 1)], 10, mkRat 3 10⟩
      ⟨vaultCfg, 2, [("a.md", [1, 2])]⟩ =
      some (errorResult ("Embedding must have " ++ toString 2 ++
        " dimensions, got " ++ toString 1)) ∧
    handleSearchByEmbedding ⟨some [JsElem.num (.fin 2)], 5, mkRat 1 2⟩
      ⟨vaultCfg, 1, [("b.md", [1, 2])]⟩ = none :=
  ⟨c4_amended.1 ⟨vaultCfg, 2, [("a.md", [1, 2])]⟩ [JsElem.num (.fin 1)] 10 (mkRat 3 10)
    (by rfl) (by simp),
   c4_amended.2 ⟨vaultCfg, 1, [("b.md", [1, 2])]⟩ [JsElem.num (.fin 2)] 5 (mkRat 1 2) 5
    (by rfl) (by simp) (by simp [elemIsFiniteNumber]) (by rfl)
    ⟨("b.md", [1, 2]), by simp, by simp⟩⟩

/-! ## Claim C10 — non-finite values in `validateEmbedding` -/

lemma all_of_invalidAt_none : ∀ (l : List JsElem) (i : Nat), invalidAt l i = none →
    ∀ e ∈ l, elemIsFiniteNumber e = true := by
  intro l
  induction l with
  | nil => intro i _ e he; simp at he
  | cons x rest ih =>
    intro i h e he
    unfold invalidAt at h
    by_cases hx : elemIsFiniteNumber x = true
    · rw [if_pos hx] at h
      rcases List.mem_cons.mp he with rfl | he'
      · exact hx
      · exact ih _ h e he'
    · rw [if_neg hx] at h
      exact absurd h (by simp)

lemma invalidAt_some_spec : ∀ (l : List JsElem) (i k : Nat), invalidAt l i = some k →
    ∃ j e, k = i + j ∧ l.get? j = some e ∧ elemIsFiniteNumber e = false := by
  intro l
  induction l with
  | nil => intro i k h; exact absurd h (by simp [invalidAt])
  | cons x rest ih =>
    intro i k h
    unfold invalidAt at h
    by_cases hx : elemIsFiniteNumber x = true
    · rw [if_pos hx] at h
      obtain ⟨j, e, hk, hg, hf⟩ := ih (i + 1) k h
      exact ⟨j + 1, e, by omega, by simpa using hg, hf⟩
    · rw [if_neg hx] at h
      injection h with h
      exact ⟨0, x, by omega, rfl, by simpa using hx⟩

/-- C10: a number array of the model's dimensionality containing a
non-finite value (`NaN`, `±Infinity`) is rejected by `validateEmbedding`
with an error naming the (first) offending index; a valid outcome implies
every element is a finite number; and `search_by_vector` answers such a
dimension-matching query with a typed error result (`NaN` is already
stopped by the zod schema, infinities by `validateEmbedding`), never a
success. -/
theorem c10_validate_embedding :
    (∀ (l : List JsElem) (dims : Nat),
      l.length = dims →
      (∃ e ∈ l, elemIsFiniteNumber e = false) →
      ∃ k e, l.get? k = some e ∧ elemIsFiniteNumber e = false ∧
        validateEmbedding (some l) dims =
          ⟨false, some ("Invalid value at index " ++ toString k), none⟩) ∧
    (∀ (l : List JsElem) (dims : Nat),
      (validateEmbedding (some l) dims).valid = true →
      ∀ e ∈ l, elemIsFiniteNumber e = true) ∧
    (∀ (ctx : ToolContext) (l : List JsElem) (limit threshold : ℚ),
      l.length = ctx.dims →
      (∀ e ∈ l, ∃ x, e = JsElem.num x) →
      (∃ e ∈ l, elemIsFiniteNumber e = false) →
      (1 : ℚ) ≤ limit → limit ≤ 50 → (0 : ℚ) ≤ threshold → threshold ≤ 1 →
      ∃ res, handleSearchByEmbedding ⟨some l, limit, threshold⟩ ctx = some res ∧
        res.isError = true) := by
  have part1 : ∀ (l : List JsElem) (dims : Nat),
      l.length = dims →
      (∃ e ∈ l, elemIsFiniteNumber e = false) →
      ∃ k e, l.get? k = some e ∧ elemIsFiniteNumber e = false ∧
        validateEmbedding (some l) dims =
          ⟨false, some ("Invalid value at index " ++ toString k), none⟩ := by
    intro l dims hlen hbad
    cases hinv : invalidAt l 0 with
    | none =>
      obtain ⟨e, he, hf⟩ := hbad
      rw [all_of_invalidAt_none l 0 hinv e he] at hf
      exact absurd hf (by simp)
    | some k =>
      obtain ⟨j, e, hk, hg, hf⟩ := invalidAt_some_spec l 0 k hinv
      have hkj : k = j := by omega
      subst hkj
      refine ⟨k, e, hg, hf, ?_⟩
      unfold validateEmbedding
      dsimp only
      rw [if_neg (by simp [hlen]), hinv]
  refine ⟨part1, ?_, ?_⟩
  · intro l dims hv e he
    unfold validateEmbedding at hv
    dsimp only at hv
    by_cases hlen : l.length ≠ dims
    · rw [if_pos hlen] at hv
      simp at hv
    · rw [if_neg hlen] at hv
      cases hinv : invalidAt l 0 with
      | some i => rw [hinv] at hv; simp at hv
      | none => exact all_of_invalidAt_none l 0 hinv e he
  · intro ctx l limit threshold hlen hnum hbad h1 h2 h3 h4
    by_cases hnan : ∃ e ∈ l, e = JsElem.num JsNumber.nan
    · refine ⟨errorResult "Invalid arguments", ?_, rfl⟩
      unfold handleSearchByEmbedding
      rw [if_pos ?_]
      intro hcontra
      obtain ⟨e, he, rfl⟩ := hnan
      unfold searchByEmbeddingSchemaOk at hcontra
      dsimp only at hcontra
      have hall : l.all zodNumberOk = false := by
        rw [List.all_eq_false]
        exact ⟨JsElem.num JsNumber.nan, he, by simp [zodNumberOk]⟩
      rw [hall] at hcontra
      simp at hcontra
    · have hallzod : l.all zodNumberOk = true := by
        rw [List.all_eq_true]
        intro e he
        obtain ⟨x, rfl⟩ := hnum e he
        cases x with
        | nan => exact absurd ⟨_, he, rfl⟩ hnan
        | fin q => rfl
        | posInf => rfl
        | negInf => rfl
      have hschema : searchByEmbeddingSchemaOk ⟨some l, limit, threshold⟩ = true := by
        unfold searchByEmbeddingSchemaOk
        dsimp only
        rw [hallzod]
        simp [h1, h2, h3, h4]
      obtain ⟨k, e, hg, hf, hv⟩ := part1 l ctx.dims hlen hbad
      refine ⟨errorResult ("Invalid value at index " ++ toString k), ?_, rfl⟩
      unfold handleSearchByEmbedding
      rw [if_neg (by simp [hschema])]
      dsimp only
      rw [hv]
      rfl

/-- Witness for C10 at `[1, Infinity]` against dimensionality 2 (named
index 1), a valid all-finite outcome at `[1]`, and the handler rejecting
the `[1, Infinity]` query with a typed error. -/
theorem c10_witness :
    (∃ k e, [JsElem.num (.fin 1), JsElem.num .posInf].get? k = some e ∧
        elemIsFiniteNumber e = false ∧
        validateEmbedding (some [JsElem.num (.fin 1), JsElem.num .posInf]) 2 =
          ⟨false, some ("Invalid value at index " ++ toString k), none⟩) ∧
    (∀ e ∈ [JsElem.num (.fin 1)], elemIsFiniteNumber e = true) ∧
    (∃ res, handleSearchByEmbedding
        ⟨some [JsElem.num (.fin 1), JsElem.num .posInf], 10, mkRat 3 10⟩
        ⟨vaultCfg, 2, []⟩ = some res ∧ res.isError = true) :=
  ⟨c10_validate_embedding.1 [JsElem.num (.fin 1), JsElem.num .posInf] 2 rfl
      ⟨JsElem.num .posInf, by simp, rfl⟩,
   c10_validate_embedding.2.1 [JsElem.num (.fin 1)] 1 rfl,
   c10_validate_embedding.2.2 ⟨vaultCfg, 2, []⟩ [JsElem.num (.fin 1), JsElem.num .posInf]
     10 (mkRat 3 10) rfl
     (by
       intro e he
       rcases List.mem_cons.mp he with rfl | he'
       · exact ⟨_, rfl⟩
       · rcases List.mem_cons.mp he' with rfl | he''
         · exact ⟨_, rfl⟩
         · simp at he'')
     ⟨JsElem.num .posInf, by simp, rfl⟩
     (by norm_num) (by norm_num) (by decide) (by decide)⟩

/-! ## Claim C8 — append-log fragment recovery -/

lemma trimLeftL_eq_self_of_jsTrim {c : String} (h : jsTrim c = c) :
    trimLeftL c.data = c.data := by
  have hd : trimRightL (trimLeftL c.data) = c.data := congrArg String.data h
  have hsuf : trimLeftL c.data <:+ c.data := List.dropWhile_suffix _
  apply hsuf.eq_of_length
  have l1 : (trimRightL (trimLeftL c.data)).length ≤ (trimLeftL c.data).length := by
    unfold trimRightL
    calc ((trimLeftL c.data).reverse.dropWhile jsIsWs).reverse.length
        = ((trimLeftL c.data).reverse.dropWhile jsIsWs).length := List.length_reverse _
      _ ≤ (trimLeftL c.data).reverse.length := (List.dropWhile_suffix _).length_le
      _ = (trimLeftL c.data).length := List.length_reverse _
  have l2 : (trimLeftL c.data).length ≤ c.data.length := hsuf.length_le
  have l3 : (trimRightL (trimLeftL c.data)).length = c.data.length := congrArg List.length hd
  omega

lemma jsTrim_append_comma {c : String} (h : jsTrim c = c) (hne : c ≠ "") :
    jsTrim (c ++ ",") = c ++ "," := by
  have h1 : trimLeftL c.data = c.data := trimLeftL_eq_self_of_jsTrim h
  obtain ⟨a, t, hct⟩ : ∃ a t, c.data = a :: t := by
    cases hc : c.data with
    | nil => exact absurd (String.ext (show c.data = ("" : String).data from hc)) hne
    | cons a t => exact ⟨a, t, rfl⟩
  have hwa : jsIsWs a = false := by
    unfold trimLeftL at h1
    rw [hct, List.dropWhile_cons] at h1
    by_cases hpa : jsIsWs a = true
    · rw [if_pos hpa] at h1
      have hlen := congrArg List.length h1
      have hle : (t.dropWhile jsIsWs).length ≤ t.length := (List.dropWhile_suffix _).length_le
      simp at hlen
      omega
    · simpa using hpa
  apply String.ext
  show trimRightL (trimLeftL (c ++ ",").data) = (c ++ ",").data
  have hdata : (c ++ ",").data = (a :: t) ++ [','] := by
    rw [String.data_append, hct]
  rw [hdata]
  have hleft : trimLeftL ((a :: t) ++ [',']) = (a :: t) ++ [','] := by
    unfold trimLeftL
    rw [List.cons_append, List.dropWhile_cons, if_neg (by simp [hwa])]
  rw [hleft]
  unfold trimRightL
  rw [show ((a :: t) ++ [',']).reverse = ',' :: (a :: t).reverse by simp]
  rw [List.dropWhile_cons, if_neg (by decide)]
  simp

lemma append_comma_ne_empty (c : String) : c ++ "," ≠ "" := by
  intro h
  have := congrArg String.data h
  rw [String.data_append] at this
  simp at this

lemma jsEndsWith_append_comma (c : String) : jsEndsWith (c ++ ",") "," = true := by
  unfold jsEndsWith
  rw [String.data_append]
  rw [show (c.data ++ ("," : String).data).reverse = ',' :: c.data.reverse by simp]
  simp [List.isPrefixOf]

lemma stripTrailingComma_append (c : String) : stripTrailingComma (c ++ ",") = c := by
  unfold stripTrailingComma
  rw [if_pos (jsEndsWith_append_comma c)]
  unfold dropLastStr
  apply String.ext
  show ((c ++ ",").data).dropLast = c.data
  rw [String.data_append]
  exact List.dropLast_concat

/-- C8: the loader's per-fragment algorithm (trim, strip one trailing
comma, wrap in braces, parse as one JSON object — the definition of
`parseAjsonFile`) satisfies: a fragment whose repaired content still
fails `JSON.parse` contributes zero entries and does not abort loading of
the remaining fragments (part 1: deleting such a fragment from the file
list leaves the loaded index unchanged); and a fragment with a dangling
trailing comma parses exactly as the same fragment without the comma, so
all of its well-formed records are contributed (part 2). -/
theorem c8_loader_recovery :
    ∀ (modelKey badName badContent : String) (pre post : List (String × String)) (c : String),
      jsEndsWith badName ".ajson" = true →
      jsonParse ("\x7b" ++ stripTrailingComma (jsTrim badContent) ++ "\x7d") = none →
      jsTrim c = c → c ≠ "" → jsEndsWith c "," = false →
      (loadEmbeddings (pre ++ (badName, badContent) :: post) modelKey =
        loadEmbeddings (pre ++ post) modelKey ∧
       parseAjsonFile (c ++ ",") modelKey = parseAjsonFile c modelKey) := by
  intro modelKey badName badContent pre post c hname hbad htrim hne hcomma
  constructor
  · have hparse : parseAjsonFile badContent modelKey = .ok [] := by
      unfold parseAjsonFile
      by_cases he : jsTrim badContent = ""
      · rw [if_pos he]
      · rw [if_neg he]
        dsimp only
        rw [hbad]
    unfold loadEmbeddings
    rw [List.filter_append, List.filter_append,
      List.filter_cons_of_pos (by simpa using hname)]
    rw [List.foldl_append, List.foldl_append, List.foldl_cons]
    rw [show mergeFileEntries
        (List.foldl (fun entries f => mergeFileEntries entries (parseAjsonFile f.2 modelKey)) []
          (pre.filter (fun f => jsEndsWith f.1 ".ajson")))
        (parseAjsonFile badContent modelKey) =
        List.foldl (fun entries f => mergeFileEntries entries (parseAjsonFile f.2 modelKey)) []
          (pre.filter (fun f => jsEndsWith f.1 ".ajson")) by
      rw [hparse]; rfl]
  · unfold parseAjsonFile
    rw [jsTrim_append_comma htrim hne, htrim]
    rw [if_neg (append_comma_ne_empty c), if_neg hne]
    rw [stripTrailingComma_append c]
    rw [show stripTrailingComma c = c by unfold stripTrailingComma; rw [hcomma]; rfl]

/-- A well-formed record fragment used by the C8 witness. -/
def c8Good : String :=
  "\"smart_sources:A.md\": \x7b\"embeddings\": \x7b\"M\": \x7b\"vec\": [1, 2]\x7d\x7d\x7d"

/-- Witness for C8: the unparsable fragment `"{"` contributes nothing and
does not abort the load of the good fragment, and the good fragment with
a dangling trailing comma contributes exactly its records. -/
theorem c8_witness :
    (loadEmbeddings [("g.ajson", c8Good), ("bad.ajson", "\x7b")] "M" =
      loadEmbeddings [("g.ajson", c8Good)] "M" ∧
     parseAjsonFile (c8Good ++ ",") "M" = parseAjsonFile c8Good "M") ∧
    parseAjsonFile (c8Good ++ ",") "M" =
      .ok [("A.md", ⟨"A.md", [Json.num (mkRat 1 1), Json.num (mkRat 2 1)], none⟩)] := by
  have h := c8_loader_recovery "M" "bad.ajson" "\x7b" [("g.ajson", c8Good)] [] c8Good
    (by rfl) (by rfl) (by rfl) (by decide) (by rfl)
  exact ⟨h, by rw [h.2]; rfl⟩

/-! ## Claim C9 — `get_note` truncation and generic read denial -/

lemma jsLength_append (a b : String) : jsLength (a ++ b) = jsLength a + jsLength b := by
  unfold jsLength
  rw [String.data_append, List.map_append, List.sum_append]

lemma sum_map_replicate (f : Char → Nat) (n : Nat) (ch : Char) :
    ((List.replicate n ch).map f).sum = n * f ch := by
  rw [List.map_replicate, List.sum_replicate, smul_eq_mul]

lemma takeUnits_all : ∀ (l : List Char) (n : Nat), (l.map utf16Units).sum ≤ n →
    takeUnits l n = l := by
  intro l
  induction l with
  | nil => intro n _; rfl
  | cons ch cs ih =>
    intro n h
    unfold takeUnits
    simp only [List.map_cons, List.sum_cons] at h
    have h1 : utf16Units ch ≤ n := le_trans (Nat.le_add_right _ _) h
    rw [if_pos h1, ih _ (by omega)]

/-- 5121 copies of `é` (U+00E9): 10242 UTF-8 bytes but only 5121 UTF-16
code units, so `content.length` stays below the 10240 cap although the
byte size exceeds it. -/
def c9Content : String := ⟨List.replicate 5121 'é'⟩

/-- Filesystem for the C9 counterexample. -/
def c9Fs : FS :=
  ⟨fun s => s = "/vault/n.md",
   fun s => if s = "/vault/n.md" then some "/vault/n.md" else none,
   fun s => if s = "/vault/n.md" then some ⟨true⟩ else none,
   fun s => if s = "/vault/n.md" then .ok c9Content else .error "unused"⟩

/-- C9 counterexample: the note's content exceeds the configured 10240
cap in *bytes* (10242), yet `handleGetNote` returns it untruncated and
without the marker, because the code compares `content.length` (UTF-16
code units: 5121) — refuting the claim that content exceeding the byte
cap is returned truncated with the marker appended. -/
theorem c9_counterexample :
    10240 < utf8ByteLength c9Content ∧
    handleGetNote c9Fs vaultCfg "n.md" = some ⟨.note "n.md" "n" c9Content, false⟩ ∧
    c9Content ≠ jsSliceUnits c9Content vaultCfg.limits.maxContentLength ++ truncMarker := by
  have hlen : jsLength c9Content = 5121 := by
    show ((List.replicate 5121 'é').map utf16Units).sum = 5121
    rw [sum_map_replicate]
    decide
  have hbyte : utf8ByteLength c9Content = 10242 := by
    show ((List.replicate 5121 'é').map Char.utf8Size).sum = 10242
    rw [sum_map_replicate]
    decide
  have hval : validateNotePath c9Fs vaultCfg "n.md" =
      some ⟨true, none, some "/vault/n.md"⟩ := by decide
  refine ⟨by rw [hbyte]; norm_num, ?_, ?_⟩
  · unfold handleGetNote
    rw [hval]
    dsimp only
    rw [if_neg (by simp)]
    rw [show c9Fs.readFileSync "/vault/n.md" = .ok c9Content from rfl]
    dsimp only
    rw [if_neg (by rw [hlen]; decide)]
    rfl
  · intro heq
    have hslice : jsSliceUnits c9Content vaultCfg.limits.maxContentLength = c9Content := by
      unfold jsSliceUnits
      rw [takeUnits_all _ _ (by rw [show (c9Content.data.map utf16Units).sum =
        jsLength c9Content from rfl, hlen]; decide)]
    rw [hslice] at heq
    have hcongr := congrArg jsLength heq
    rw [jsLength_append] at hcongr
    have hpos : 0 < jsLength truncMarker := by decide
    omega

/-- C9 amended: for every `get_note` request whose path passes
validation, if the successfully-read content exceeds the configured cap
*measured in UTF-16 code units* (`content.length`, not bytes), the
returned content is the slice of that many code units with the explicit
truncation marker appended; and if the read fails, the caller receives
only the constant generic denial `"Failed to read note"`, whatever the
underlying filesystem error detail was. -/
theorem c9_amended :
    ∀ (fs : FS) (cfg : Config) (p : String) (v : ValidationResult) (t : String),
      validateNotePath fs cfg p = some v → v.valid = true → v.resolvedPath = some t →
      ((∀ content, fs.readFileSync t = .ok content →
          cfg.limits.maxContentLength < jsLength content →
          handleGetNote fs cfg p =
            some ⟨.note p (extractTitle p)
              (jsSliceUnits content cfg.limits.maxContentLength ++ truncMarker), false⟩) ∧
       (∀ e, fs.readFileSync t = .error e →
          handleGetNote fs cfg p = some (errorResult "Failed to read note"))) := by
  intro fs cfg p v t hval hv hres
  constructor
  · intro content hread hlen
    unfold handleGetNote
    rw [hval]
    dsimp only
    rw [if_neg (by simp [hv]), hres]
    dsimp only
    rw [hread]
    dsimp only
    rw [if_pos hlen]
  · intro e hread
    unfold handleGetNote
    rw [hval]
    dsimp only
    rw [if_neg (by simp [hv]), hres]
    dsimp only
    rw [hread]

/-- Config for the C9 witness with a small cap of 5 code units. -/
def c9CfgW : Config := ⟨"/vault", "/vault", ⟨1000, 50, 5⟩⟩

/-- Filesystems for the C9 witness: a successful 8-character read and a
failed read with some filesystem error detail. -/
def c9FsW : FS :=
  ⟨fun s => s = "/vault/w.md",
   fun s => if s = "/vault/w.md" then some "/vault/w.md" else none,
   fun s => if s = "/vault/w.md" then some ⟨true⟩ else none,
   fun s => if s = "/vault/w.md" then .ok "abcdefgh" else .error "unused"⟩

def c9FsErr : FS :=
  ⟨fun s => s = "/vault/w.md",
   fun s => if s = "/vault/w.md" then some "/vault/w.md" else none,
   fun s => if s = "/vault/w.md" then some ⟨true⟩ else none,
   fun _ => .error "EACCES: permission denied"⟩

/-- Witness for C9 (amended): truncation at a cap of 5 code units, and
the generic denial on a failed read. -/
theorem c9_witness :
    handleGetNote c9FsW c9CfgW "w.md" =
      some ⟨.note "w.md" "w" (jsSliceUnits "abcdefgh" 5 ++ truncMarker), false⟩ ∧
    handleGetNote c9FsErr c9CfgW "w.md" = some (errorResult "Failed to read note") :=
  ⟨(c9_amended c9FsW c9CfgW "w.md" ⟨true, none, some "/vault/w.md"⟩ "/vault/w.md"
      (by decide) rfl rfl).1 "abcdefgh" (by rfl) (by decide),
   (c9_amended c9FsErr c9CfgW "w.md" ⟨true, none, some "/vault/w.md"⟩ "/vault/w.md"
      (by decide) rfl rfl).2 "EACCES: permission denied" (by rfl)⟩
